import Mathlib

/-!
Verification of `prometheus-mdns-rs` (src/main.rs): an mDNS discovery loop
that maintains a registry of live Prometheus scrape targets keyed by IP
address and publishes it as a Prometheus file-SD target list.

Shallow embedding: time (`std::time::Instant`) is modelled as `Nat`
time-units; `Duration::from_secs(n)` as the number `n`; the
`HashMap<IpAddr, Service>` registry as an association list
`List (IpAddr × Service)` whose keys are unique (iteration order of the
Rust hash map is unspecified, and no claim depends on the order); the mpsc
channel drain as the FIFO list of records received in one cycle.
-/

namespace PromMdns

/-- Network address. `v4 a b c d` represents a dotted-decimal IPv4 address.
For IPv6 the standard library's textual rendering is external to this
repository, so the constructor carries the address's standard textual form
directly (modelled from the spec: address textual form is
"IPv6 standard textual form"). -/
inductive IpAddr where
  | v4 (a b c d : Nat)
  | v6 (text : String)
deriving DecidableEq

/-- Textual form of an address, as produced by `Display for IpAddr`:
dotted decimal for IPv4, the carried standard textual form for IPv6. -/
def ipStr : IpAddr → String
  | .v4 a b c d =>
      toString a ++ "." ++ toString b ++ "." ++ toString c ++ "." ++ toString d
  | .v6 s => s

/-- The hostname of the devices we are searching for
(`const SERVICE_NAME` in main.rs). -/
def SERVICE_NAME : String := "_prometheus-http._tcp.local"

/-- Liveness timeout, `const TIMEOUT: Duration = Duration::from_secs(60)`. -/
def TIMEOUT : Nat := 60

/-- Poll interval, `const INTERVAL: Duration = Duration::from_secs(15)`. -/
def INTERVAL : Nat := 15

/-- The `Service` struct of main.rs: one discovered service instance.
`last_seen` is the `Instant` at which it was decoded, in time-units. -/
structure Service where
  name : String
  addr : IpAddr
  port : Nat
  last_seen : Nat
deriving DecidableEq

/-- The `PrometheusService` struct of main.rs: one file-SD target object.
The serde `HashMap<String, String>` for `labels` is modelled as the list of
its entries (the code always builds a one-entry map). -/
structure PrometheusService where
  targets : List String
  labels : List (String × String)
deriving DecidableEq

/-- The `From<&Service> for PrometheusService` conversion of main.rs:
targets is the one-element vector holding `format!` of the address, a
colon and the port; labels is the one-entry map sending "name" to the
service's name. -/
def toPrometheus (service : Service) : PrometheusService :=
  { targets := [ipStr service.addr ++ ":" ++ toString service.port]
    labels := [("name", service.name)] }

/-- Record kinds of the mdns crate used by main.rs. `A` carries the four
octets of an IPv4 address; `AAAA` carries the IPv6 address (by its standard
textual form, see `IpAddr.v6`); `SRV` carries priority, weight, port,
target; `TXT` the list of key/value strings; remaining kinds are collapsed
into `other` since the code never inspects them. -/
inductive RecordKind where
  | A (a b c d : Nat)
  | AAAA (text : String)
  | SRV (priority weight port : Nat) (target : String)
  | TXT (txt : List String)
  | other
deriving DecidableEq

/-- A DNS record of an mDNS response: owner name and kind. -/
structure Record where
  name : String
  kind : RecordKind
deriving DecidableEq

/-- The `to_ip_addr` function of main.rs: an address from an `A` or `AAAA`
record, nothing otherwise. -/
def to_ip_addr (record : Record) : Option IpAddr :=
  match record.kind with
  | .A a b c d => some (IpAddr.v4 a b c d)
  | .AAAA s => some (IpAddr.v6 s)
  | _ => none

/-- Substring test on character lists: does `pat` occur contiguously
inside `l`? Embeds Rust `str::contains` used by `to_port`. -/
def charsContain (pat : List Char) : List Char → Bool
  | [] => pat.isEmpty
  | c :: cs => (pat.isPrefixOf (c :: cs) : Bool) || charsContain pat cs

/-- Substring test on strings (Rust `str::contains` with a `&str` pattern). -/
def strContainsStr (s pat : String) : Bool :=
  charsContain pat.toList s.toList

/-- The `to_port` function of main.rs: the port of an `SRV` record whose
owner name contains `SERVICE_NAME`, nothing otherwise. -/
def to_port (record : Record) : Option Nat :=
  match record.kind with
  | .SRV _ _ port _ =>
      if strContainsStr record.name SERVICE_NAME then some port else none
  | _ => none

/-- Rust `str::split(c)`: split a character list at every occurrence of
`c`, keeping empty segments; always returns at least one segment. -/
def splitOnChar (c : Char) : List Char → List (List Char)
  | [] => [[]]
  | x :: xs =>
    if x = c then [] :: splitOnChar c xs
    else
      match splitOnChar c xs with
      | h :: t => (x :: h) :: t
      | [] => [[x]]

/-- The loop body of `to_name` over the TXT pairs: for each pair, take the
first two segments of `pair.split('=')` as key and value (both exist iff
the pair contains at least one `=`); if the key is `"name"` return the
value, otherwise continue with the next pair. -/
def nameFromPairs : List String → Option String
  | [] => none
  | pair :: rest =>
    match splitOnChar '=' pair.toList with
    | key :: value :: _ =>
        if key = "name".toList then some (String.mk value) else nameFromPairs rest
    | _ => nameFromPairs rest

/-- The `to_name` function of main.rs: scan the pairs of a `TXT` record
with `nameFromPairs`; nothing for other record kinds. -/
def to_name (record : Record) : Option String :=
  match record.kind with
  | .TXT txt => nameFromPairs txt
  | _ => none

/-- The per-response closure of `discover` in main.rs: if some record's
name equals `SERVICE_NAME`, extract the first address, first port and
first name (each via `.filter_map(..).next()`, i.e. the first record on
which the extractor succeeds); send a `Service` (stamped with the current
time) iff all three succeeded. -/
def decode (records : List Record) (now : Nat) : Option Service :=
  if records.any (fun r => r.name == SERVICE_NAME) then
    match records.findSome? to_ip_addr, records.findSome? to_name,
        records.findSome? to_port with
    | some addr, some name, some port =>
        some { name := name, addr := addr, port := port, last_seen := now }
    | _, _, _ => none
  else none

/-- The registry `services: HashMap<IpAddr, Service>` of main.rs,
modelled as an association list with unique keys. -/
abbrev Registry := List (IpAddr × Service)

/-- Keys of a registry. -/
def keys (m : Registry) : List IpAddr := m.map Prod.fst

/-- Whether the registry holds an entry for key `k`
(`HashMap::contains_key`). -/
def containsKey (m : Registry) (k : IpAddr) : Bool :=
  m.any (fun p => p.1 == k)

/-- Value stored under key `k`, if any (`HashMap::get`). -/
def lookup? (m : Registry) (k : IpAddr) : Option Service :=
  (m.find? (fun p => p.1 == k)).map Prod.snd

/-- The `services.insert(service.addr, service)` operation: replace the
binding if the key is present, otherwise add a new one. -/
def insertSvc (m : Registry) (k : IpAddr) (v : Service) : Registry :=
  if containsKey m k then m.map (fun p => if p.1 == k then (k, v) else p)
  else m ++ [(k, v)]

/-- The drain loop `while let Ok(service) = rx.try_recv()` of main.rs:
insert each drained record, keyed by its address, in FIFO order. -/
def drain (m : Registry) (pending : List Service) : Registry :=
  pending.foldl (fun acc s => insertSvc acc s.addr s) m

/-- The expiry step `services.retain(|_, service|
Instant::now().duration_since(service.last_seen) < TIMEOUT)` of main.rs,
with the current time `now` (Nat subtraction saturates at zero exactly as
`Instant::duration_since` does). -/
def expire (now : Nat) (m : Registry) : Registry :=
  m.filter (fun p => now - p.2.last_seen < TIMEOUT)

/-- The snapshot `services.iter().map(|(_, service)| service.into())
.collect()` of main.rs: one `PrometheusService` per registry entry. -/
def snapshot (m : Registry) : List PrometheusService :=
  m.map (fun p => toPrometheus p.2)

/-- One iteration of the main loop of main.rs, without the write itself:
record the size before draining, drain, record the size after insertion,
expire, record the size after expiry; publish a snapshot iff
`start_count != added_count || added_count != removed_count`. Returns the
new registry and the published snapshot, if any. -/
def cycle (m : Registry) (pending : List Service) (now : Nat) :
    Registry × Option (List PrometheusService) :=
  let start_count := m.length
  let m₁ := drain m pending
  let added_count := m₁.length
  let m₂ := expire now m₁
  let removed_count := m₂.length
  if start_count ≠ added_count ∨ added_count ≠ removed_count then
    (m₂, some (snapshot m₂))
  else (m₂, none)

/-- Outcome of `path.write(|f| f.write_all(output.as_bytes()))`: the
atomic write either succeeds or fails with an I/O error; `ok` selects
which outcome this cycle's write has. -/
def writeSnapshot (ok : Bool) (_out : List PrometheusService) :
    Except String Unit :=
  if ok then Except.ok () else Except.error "io error"

/-- The main loop of main.rs run for finitely many cycles: each cycle is
given the records drained in it, the current time, and the outcome its
atomic write would have. When a snapshot is published the write's result
is discarded (`let _ = path.write(..)` in main.rs). Returns the final
registry and, per cycle, whether it published. -/
def runLoop (m : Registry) :
    List (List Service × Nat × Bool) → Registry × List Bool
  | [] => (m, [])
  | (pending, now, wOk) :: rest =>
    let step := cycle m pending now
    let published :=
      match step.2 with
      | some snap =>
          let _ := writeSnapshot wOk snap
          true
      | none => false
    let tail := runLoop step.1 rest
    (tail.1, published :: tail.2)

/-- The main loop run over cycles whose drains are all empty: returns the
final registry and whether any cycle published. -/
def runEmpty (m : Registry) : List Nat → Registry × Bool
  | [] => (m, false)
  | now :: rest =>
    let step := cycle m [] now
    let tail := runEmpty step.1 rest
    (tail.1, step.2.isSome || tail.2)

/-- The most recently drained record for address `a` in a FIFO drain list
(later records win). -/
def lastFor : List Service → IpAddr → Option Service
  | [], _ => none
  | r :: rest, a =>
    match lastFor rest a with
    | some x => some x
    | none => if r.addr = a then some r else none

/-! ## Helper lemmas about the registry operations -/

theorem containsKey_iff_mem_keys (m : Registry) (k : IpAddr) :
    containsKey m k = true ↔ k ∈ keys m := by
  simp only [containsKey, keys, List.any_eq_true, List.mem_map, beq_iff_eq]

theorem keys_insertSvc_of_contains (m : Registry) (k : IpAddr) (v : Service)
    (h : containsKey m k = true) : keys (insertSvc m k v) = keys m := by
  unfold insertSvc
  rw [if_pos h]
  unfold keys
  rw [List.map_map]
  apply List.map_congr_left
  intro p _
  by_cases hp : p.1 = k
  · simp [hp]
  · simp [hp]

theorem keys_insertSvc_of_not_contains (m : Registry) (k : IpAddr) (v : Service)
    (h : containsKey m k = false) : keys (insertSvc m k v) = keys m ++ [k] := by
  unfold insertSvc
  rw [if_neg (by simp [h])]
  simp [keys]

theorem length_insertSvc_of_contains (m : Registry) (k : IpAddr) (v : Service)
    (h : containsKey m k = true) : (insertSvc m k v).length = m.length := by
  have hk := keys_insertSvc_of_contains m k v h
  have h₁ : (keys (insertSvc m k v)).length = (keys m).length := by rw [hk]
  simpa [keys] using h₁

theorem containsKey_insertSvc_of (m : Registry) (k k' : IpAddr) (v : Service)
    (h : containsKey m k' = true) : containsKey (insertSvc m k v) k' = true := by
  rw [containsKey_iff_mem_keys] at h ⊢
  by_cases hc : containsKey m k = true
  · rwa [keys_insertSvc_of_contains m k v hc]
  · rw [keys_insertSvc_of_not_contains m k v (by simpa using hc)]
    exact List.mem_append.mpr (Or.inl h)

theorem nodup_keys_insertSvc (m : Registry) (k : IpAddr) (v : Service)
    (h : (keys m).Nodup) : (keys (insertSvc m k v)).Nodup := by
  by_cases hc : containsKey m k = true
  · rw [keys_insertSvc_of_contains m k v hc]
    exact h
  · have hc' : containsKey m k = false := by simpa using hc
    rw [keys_insertSvc_of_not_contains m k v hc']
    have hk : k ∉ keys m := by
      rw [← containsKey_iff_mem_keys]
      simp [hc']
    simp [List.nodup_append, h, hk]

theorem find?_replace_self (m : Registry) (k : IpAddr) (v : Service)
    (h : m.any (fun p => p.1 == k) = true) :
    (m.map (fun p => if p.1 == k then (k, v) else p)).find?
      (fun p => p.1 == k) = some (k, v) := by
  induction m with
  | nil => simp at h
  | cons p rest ih =>
    by_cases hp : p.1 = k
    · rw [List.map_cons, if_pos (by simpa using hp)]
      exact List.find?_cons_of_pos _ (by simp)
    · have hb : (p.1 == k) = false := by simpa using hp
      have hrest : rest.any (fun q => q.1 == k) = true := by
        simpa [List.any_cons, hb] using h
      rw [List.map_cons, if_neg (by simp [hb])]
      rw [List.find?_cons_of_neg _ (by simp [hb])]
      exact ih hrest

theorem lookup?_insertSvc_self (m : Registry) (k : IpAddr) (v : Service) :
    lookup? (insertSvc m k v) k = some v := by
  unfold lookup? insertSvc
  by_cases hc : containsKey m k = true
  · rw [if_pos hc]
    rw [find?_replace_self m k v hc]
    rfl
  · rw [if_neg (by simp [hc])]
    have hnone : m.find? (fun p => p.1 == k) = none := by
      rw [List.find?_eq_none]
      intro p hp hk
      exact absurd (containsKey_iff_mem_keys m k |>.mpr
        (List.mem_map.mpr ⟨p, hp, by simpa using hk⟩)) (by simpa using hc)
    rw [List.find?_append, hnone, Option.none_or,
      List.find?_cons_of_pos _ (by simp)]
    rfl

theorem find?_replace_ne (m : Registry) (k k' : IpAddr) (v : Service)
    (h : k' ≠ k) :
    (m.map (fun p => if p.1 == k then (k, v) else p)).find?
      (fun p => p.1 == k') = m.find? (fun p => p.1 == k') := by
  induction m with
  | nil => rfl
  | cons p rest ih =>
    by_cases hp : p.1 = k
    · rw [List.map_cons, if_pos (by simpa using hp)]
      rw [List.find?_cons_of_neg _ (by simpa using fun hkk => h hkk.symm)]
      rw [List.find?_cons_of_neg _ (by simp [hp]; exact fun hkk => h hkk.symm)]
      exact ih
    · rw [List.map_cons, if_neg (by simpa using hp)]
      by_cases hp' : p.1 = k'
      · rw [List.find?_cons_of_pos _ (by simpa using hp'),
          List.find?_cons_of_pos _ (by simpa using hp')]
      · rw [List.find?_cons_of_neg _ (by simpa using hp'),
          List.find?_cons_of_neg _ (by simpa using hp')]
        exact ih

theorem lookup?_insertSvc_ne (m : Registry) (k k' : IpAddr) (v : Service)
    (h : k' ≠ k) : lookup? (insertSvc m k v) k' = lookup? m k' := by
  unfold lookup? insertSvc
  by_cases hc : containsKey m k = true
  · rw [if_pos hc, find?_replace_ne m k k' v h]
  · rw [if_neg (by simp [hc])]
    rw [List.find?_append]
    rw [List.find?_cons_of_neg _ (by simpa using fun hkk => h hkk.symm)]
    simp [List.find?]

theorem drain_nil (m : Registry) : drain m [] = m := rfl

theorem drain_cons (m : Registry) (r : Service) (rest : List Service) :
    drain m (r :: rest) = drain (insertSvc m r.addr r) rest := rfl

theorem keys_drain_of_contains (pending : List Service) (m : Registry)
    (h : ∀ r ∈ pending, containsKey m r.addr = true) :
    keys (drain m pending) = keys m := by
  induction pending generalizing m with
  | nil => rfl
  | cons r rest ih =>
    rw [drain_cons]
    have h₁ : containsKey m r.addr = true := h r (by simp)
    rw [ih (insertSvc m r.addr r) (fun r' hr' =>
      containsKey_insertSvc_of m r.addr r'.addr r (h r' (by simp [hr'])))]
    exact keys_insertSvc_of_contains m r.addr r h₁

theorem length_eq_length_keys (m : Registry) : m.length = (keys m).length := by
  simp [keys]

theorem nodup_keys_drain (pending : List Service) (m : Registry)
    (h : (keys m).Nodup) : (keys (drain m pending)).Nodup := by
  induction pending generalizing m with
  | nil => exact h
  | cons r rest ih =>
    rw [drain_cons]
    exact ih _ (nodup_keys_insertSvc m r.addr r h)

theorem lookup?_drain (pending : List Service) (m : Registry) (a : IpAddr) :
    lookup? (drain m pending) a =
      match lastFor pending a with
      | some r => some r
      | none => lookup? m a := by
  induction pending generalizing m with
  | nil => rfl
  | cons r rest ih =>
    rw [drain_cons, ih]
    cases hrest : lastFor rest a with
    | some x => simp [lastFor, hrest]
    | none =>
      by_cases ha : r.addr = a
      · simp only [lastFor, hrest, if_pos ha]
        rw [← ha, lookup?_insertSvc_self]
      · simp only [lastFor, hrest, if_neg ha]
        exact lookup?_insertSvc_ne m r.addr a r (fun hne => ha hne.symm)

theorem mem_expire (now : Nat) (m : Registry) (p : IpAddr × Service) :
    p ∈ expire now m ↔ p ∈ m ∧ now - p.2.last_seen < TIMEOUT := by
  simp [expire, List.mem_filter]

theorem expire_eq_self (now : Nat) (m : Registry)
    (h : ∀ p ∈ m, now - p.2.last_seen < TIMEOUT) : expire now m = m := by
  unfold expire
  rw [List.filter_eq_self]
  intro p hp
  simpa using h p hp

theorem nodup_keys_expire (now : Nat) (m : Registry)
    (h : (keys m).Nodup) : (keys (expire now m)).Nodup := by
  have hsub : List.Sublist (keys (expire now m)) (keys m) :=
    List.Sublist.map Prod.fst (List.filter_sublist m)
  exact h.sublist hsub

theorem lookup?_expire_of_live (now : Nat) (m : Registry) (k : IpAddr)
    (v : Service) (hl : lookup? m k = some v)
    (hv : now - v.last_seen < TIMEOUT) :
    lookup? (expire now m) k = some v := by
  unfold lookup? at hl ⊢
  unfold expire
  induction m with
  | nil => simp at hl
  | cons p rest ih =>
    by_cases hp : p.1 = k
    · rw [List.find?_cons_of_pos _ (by simpa using hp)] at hl
      have hv' : p.2 = v := by simpa using hl
      rw [List.filter_cons_of_pos (by simp [hv' ▸ hv])]
      rw [List.find?_cons_of_pos _ (by simpa using hp)]
      simpa using hv'
    · rw [List.find?_cons_of_neg _ (by simpa using hp)] at hl
      by_cases hkeep : now - p.2.last_seen < TIMEOUT
      · rw [List.filter_cons_of_pos (by simpa using hkeep)]
        rw [List.find?_cons_of_neg _ (by simpa using hp)]
        exact ih hl
      · rw [List.filter_cons_of_neg (by simpa using hkeep)]
        exact ih hl

theorem length_snapshot (m : Registry) : (snapshot m).length = m.length := by
  simp [snapshot]

theorem mem_snapshot (m : Registry) (a : IpAddr) (s : Service)
    (h : (a, s) ∈ m) : toPrometheus s ∈ snapshot m := by
  exact List.mem_map.mpr ⟨(a, s), h, rfl⟩

theorem cycle_fst (m : Registry) (pending : List Service) (now : Nat) :
    (cycle m pending now).1 = expire now (drain m pending) := by
  unfold cycle
  by_cases h : m.length ≠ (drain m pending).length ∨
      (drain m pending).length ≠ (expire now (drain m pending)).length
  · simp only [if_pos h]
  · simp only [if_neg h]

theorem cycle_snd_isSome_iff (m : Registry) (pending : List Service)
    (now : Nat) :
    (cycle m pending now).2 ≠ none ↔
      (m.length ≠ (drain m pending).length ∨
       (drain m pending).length ≠ (expire now (drain m pending)).length) := by
  unfold cycle
  by_cases h : m.length ≠ (drain m pending).length ∨
      (drain m pending).length ≠ (expire now (drain m pending)).length
  · simp only [if_pos h]
    simpa using h
  · simp only [if_neg h]
    simpa using h

theorem splitOnChar_ne_nil (c : Char) (l : List Char) :
    splitOnChar c l ≠ [] := by
  induction l with
  | nil => simp [splitOnChar]
  | cons x xs ih =>
    unfold splitOnChar
    by_cases h : x = c
    · simp [h]
    · simp only [if_neg h]
      cases hs : splitOnChar c xs with
      | nil => simp
      | cons a b => simp

theorem splitOnChar_cons_eq (c : Char) (xs : List Char) :
    splitOnChar c (c :: xs) = [] :: splitOnChar c xs := by
  simp [splitOnChar]

theorem splitOnChar_cons_ne (c x : Char) (xs hd : List Char)
    (tl : List (List Char)) (h : x ≠ c) (heq : splitOnChar c xs = hd :: tl) :
    splitOnChar c (x :: xs) = (x :: hd) :: tl := by
  simp [splitOnChar, h, heq]

theorem splitOnChar_head (c : Char) (l : List Char) :
    ∃ t, splitOnChar c l = l.takeWhile (fun x => x ≠ c) :: t := by
  induction l with
  | nil => exact ⟨[], rfl⟩
  | cons x xs ih =>
    by_cases h : x = c
    · refine ⟨splitOnChar c xs, ?_⟩
      subst h
      simp [splitOnChar, List.takeWhile_cons]
    · obtain ⟨t, ht⟩ := ih
      refine ⟨t, ?_⟩
      rw [splitOnChar_cons_ne c x xs _ t h ht]
      simp [List.takeWhile_cons, h]

theorem splitOnChar_of_not_mem (c : Char) (l : List Char) (h : c ∉ l) :
    splitOnChar c l = [l] := by
  induction l with
  | nil => rfl
  | cons x xs ih =>
    have hx : x ≠ c := fun hxc => h (by simp [hxc])
    have hxs : c ∉ xs := fun hc => h (by simp [hc])
    rw [splitOnChar_cons_ne c x xs xs [] hx (ih hxs)]

theorem splitOnChar_name_key (v : List Char) :
    splitOnChar '=' ('n' :: 'a' :: 'm' :: 'e' :: '=' :: v) =
      "name".toList :: splitOnChar '=' v := by
  obtain ⟨hd, tl, heq⟩ : ∃ hd tl, splitOnChar '=' v = hd :: tl := by
    cases hs : splitOnChar '=' v with
    | nil => exact absurd hs (splitOnChar_ne_nil '=' v)
    | cons a b => exact ⟨a, b, rfl⟩
  have h1 := splitOnChar_cons_eq '=' v
  have h2 := splitOnChar_cons_ne '=' 'e' ('=' :: v) [] (splitOnChar '=' v)
    (by decide) h1
  have h3 := splitOnChar_cons_ne '=' 'm' ('e' :: '=' :: v) ['e']
    (splitOnChar '=' v) (by decide) h2
  have h4 := splitOnChar_cons_ne '=' 'a' ('m' :: 'e' :: '=' :: v) ['m', 'e']
    (splitOnChar '=' v) (by decide) h3
  have h5 := splitOnChar_cons_ne '=' 'n' ('a' :: 'm' :: 'e' :: '=' :: v)
    ['a', 'm', 'e'] (splitOnChar '=' v) (by decide) h4
  rw [h5]
  rfl

/-! ## Claim theorems -/

/-- C1: in every aggregation cycle the publisher is invoked iff the
registry size before draining differs from the size after insertion, or
the size after insertion differs from the size after expiry; hence a cycle
in which every drained record's address is already registered and no entry
expires (in-place replacement at an existing address) publishes nothing. -/
theorem publish_iff_size_change (m : Registry) (pending : List Service)
    (now : Nat) :
    ((cycle m pending now).2 ≠ none ↔
      (m.length ≠ (drain m pending).length ∨
       (drain m pending).length ≠ (expire now (drain m pending)).length)) ∧
    ((∀ r ∈ pending, containsKey m r.addr = true) →
     (∀ p ∈ drain m pending, now - p.2.last_seen < TIMEOUT) →
     (cycle m pending now).2 = none) := by
  refine ⟨cycle_snd_isSome_iff m pending now, fun h1 h2 => ?_⟩
  have hlen : (drain m pending).length = m.length := by
    rw [length_eq_length_keys, length_eq_length_keys m,
      keys_drain_of_contains pending m h1]
  have hexp : expire now (drain m pending) = drain m pending :=
    expire_eq_self now _ h2
  have hcond : ¬(m.length ≠ (drain m pending).length ∨
      (drain m pending).length ≠ (expire now (drain m pending)).length) := by
    rw [hexp, hlen]
    simp
  unfold cycle
  rw [if_neg hcond]

/-- Witness for C1: one registered service at `1.2.3.4`; the drain
replaces it (new name and port, same address) and nothing expires, so the
cycle publishes nothing. -/
theorem publish_iff_size_change_witness :
    (cycle [(IpAddr.v4 1 2 3 4, ⟨"n", IpAddr.v4 1 2 3 4, 80, 0⟩)]
      [⟨"m", IpAddr.v4 1 2 3 4, 81, 5⟩] 6).2 = none :=
  (publish_iff_size_change [(IpAddr.v4 1 2 3 4, ⟨"n", IpAddr.v4 1 2 3 4, 80, 0⟩)]
    [⟨"m", IpAddr.v4 1 2 3 4, 81, 5⟩] 6).2 (by decide) (by decide)

/-- C2: starting from a registry with unique addresses, draining any
record sequence (and then expiring) keeps addresses unique, and the entry
stored for an address is exactly the most recently drained record for that
address — all its fields, with no field-wise merge. -/
theorem registry_keyed_by_addr (m : Registry) (pending : List Service)
    (now : Nat) (a : IpAddr) (r : Service) (h : (keys m).Nodup) :
    (keys (drain m pending)).Nodup ∧
    (keys (expire now (drain m pending))).Nodup ∧
    (lastFor pending a = some r → lookup? (drain m pending) a = some r) := by
  refine ⟨nodup_keys_drain pending m h,
    nodup_keys_expire now _ (nodup_keys_drain pending m h), fun hl => ?_⟩
  rw [lookup?_drain, hl]

/-- Witness for C2: two records for the same address drained into an empty
registry; the later record's fields win. -/
theorem registry_keyed_by_addr_witness :
    (keys (drain ([] : Registry)
      [⟨"x", IpAddr.v4 1 1 1 1, 1, 0⟩, ⟨"y", IpAddr.v4 1 1 1 1, 2, 3⟩])).Nodup ∧
    (keys (expire 4 (drain ([] : Registry)
      [⟨"x", IpAddr.v4 1 1 1 1, 1, 0⟩, ⟨"y", IpAddr.v4 1 1 1 1, 2, 3⟩]))).Nodup ∧
    (lastFor [⟨"x", IpAddr.v4 1 1 1 1, 1, 0⟩, ⟨"y", IpAddr.v4 1 1 1 1, 2, 3⟩]
        (IpAddr.v4 1 1 1 1) = some ⟨"y", IpAddr.v4 1 1 1 1, 2, 3⟩ →
      lookup? (drain ([] : Registry)
        [⟨"x", IpAddr.v4 1 1 1 1, 1, 0⟩, ⟨"y", IpAddr.v4 1 1 1 1, 2, 3⟩])
        (IpAddr.v4 1 1 1 1) = some ⟨"y", IpAddr.v4 1 1 1 1, 2, 3⟩) :=
  registry_keyed_by_addr []
    [⟨"x", IpAddr.v4 1 1 1 1, 1, 0⟩, ⟨"y", IpAddr.v4 1 1 1 1, 2, 3⟩]
    4 (IpAddr.v4 1 1 1 1) ⟨"y", IpAddr.v4 1 1 1 1, 2, 3⟩ (by decide)

/-- C3: the liveness timeout defaults to 60 time-units; the expiry step
removes an entry iff `now - last_seen >= TIMEOUT`; and a record drained
for the same address whose timestamp is within the timeout keeps the
entry alive through the cycle's expiry check (the refresh resets the
timer). -/
theorem expiry_timeout (m : Registry) (pending : List Service) (now : Nat)
    (p : IpAddr × Service) (r : Service) :
    TIMEOUT = 60 ∧
    (p ∈ m → (p ∉ expire now m ↔ TIMEOUT ≤ now - p.2.last_seen)) ∧
    (lastFor pending r.addr = some r → now - r.last_seen < TIMEOUT →
      lookup? (cycle m pending now).1 r.addr = some r) := by
  refine ⟨rfl, fun hp => ?_, fun hl hr => ?_⟩
  · rw [mem_expire]
    simp [hp, Nat.not_lt]
  · rw [cycle_fst]
    have hd : lookup? (drain m pending) r.addr = some r := by
      rw [lookup?_drain, hl]
    exact lookup?_expire_of_live now _ r.addr r hd hr

/-- Witness for C3: an entry last seen at 0 would expire at the check at
time 60, but a refresh drained at 59 keeps the address registered. -/
theorem expiry_timeout_witness :
    lookup? (cycle [(IpAddr.v4 9 9 9 9, ⟨"old", IpAddr.v4 9 9 9 9, 1, 0⟩)]
        [⟨"new", IpAddr.v4 9 9 9 9, 2, 59⟩] 60).1 (IpAddr.v4 9 9 9 9) =
      some ⟨"new", IpAddr.v4 9 9 9 9, 2, 59⟩ :=
  (expiry_timeout [(IpAddr.v4 9 9 9 9, ⟨"old", IpAddr.v4 9 9 9 9, 1, 0⟩)]
    [⟨"new", IpAddr.v4 9 9 9 9, 2, 59⟩] 60
    (IpAddr.v4 9 9 9 9, ⟨"old", IpAddr.v4 9 9 9 9, 1, 0⟩)
    ⟨"new", IpAddr.v4 9 9 9 9, 2, 59⟩).2.2 (by decide) (by decide)

/-- C4: the decoder yields a service for a response iff some record's name
equals `SERVICE_NAME` and an address, a port and a name are all
successfully extracted; otherwise it yields nothing. -/
theorem decode_iff_extracted (records : List Record) (now : Nat) :
    (decode records now).isSome = true ↔
      (records.any (fun r => r.name == SERVICE_NAME) = true ∧
       (records.findSome? to_ip_addr).isSome = true ∧
       (records.findSome? to_name).isSome = true ∧
       (records.findSome? to_port).isSome = true) := by
  unfold decode
  by_cases h : records.any (fun r => r.name == SERVICE_NAME) = true
  · rw [if_pos h]
    cases ha : records.findSome? to_ip_addr <;>
      cases hn : records.findSome? to_name <;>
      cases hp : records.findSome? to_port <;>
      simp [h]
  · rw [if_neg h]
    simp [h]

/-- C5: each registry entry contributes exactly one published object of
the snapshot, whose targets field is the one-element list
`"<address>:<port>"` and whose labels field is the one-entry mapping from
"name" to the advertised name. -/
theorem snapshot_entry_shape (m : Registry) (a : IpAddr) (s : Service)
    (h : (a, s) ∈ m) :
    toPrometheus s ∈ snapshot m ∧
    (toPrometheus s).targets = [ipStr s.addr ++ ":" ++ toString s.port] ∧
    (toPrometheus s).labels = [("name", s.name)] ∧
    (snapshot m).length = m.length :=
  ⟨mem_snapshot m a s h, rfl, rfl, length_snapshot m⟩

/-- Witness for C5: the single entry `10.0.0.5`, port 9100, name "node1"
is published as targets `["10.0.0.5:9100"]`, labels `[("name","node1")]`. -/
theorem snapshot_entry_shape_witness :
    toPrometheus ⟨"node1", IpAddr.v4 10 0 0 5, 9100, 0⟩ ∈
      snapshot [(IpAddr.v4 10 0 0 5, ⟨"node1", IpAddr.v4 10 0 0 5, 9100, 0⟩)] ∧
    (toPrometheus ⟨"node1", IpAddr.v4 10 0 0 5, 9100, 0⟩).targets =
      [ipStr (IpAddr.v4 10 0 0 5) ++ ":" ++ toString 9100] ∧
    (toPrometheus ⟨"node1", IpAddr.v4 10 0 0 5, 9100, 0⟩).labels =
      [("name", "node1")] ∧
    (snapshot [(IpAddr.v4 10 0 0 5,
      ⟨"node1", IpAddr.v4 10 0 0 5, 9100, 0⟩)]).length =
      ([(IpAddr.v4 10 0 0 5,
        ⟨"node1", IpAddr.v4 10 0 0 5, 9100, 0⟩)] : Registry).length :=
  snapshot_entry_shape [(IpAddr.v4 10 0 0 5, ⟨"node1", IpAddr.v4 10 0 0 5, 9100, 0⟩)]
    (IpAddr.v4 10 0 0 5) ⟨"node1", IpAddr.v4 10 0 0 5, 9100, 0⟩ (by decide)

/-- C6 counterexample: for the TXT pair "name=a=b" the code extracts the
value "a" — the segment between the first and second `=` — not "a=b" as
the claim states. -/
theorem to_name_not_split_at_first_eq_only :
    to_name { name := "svc", kind := RecordKind.TXT ["name=a=b"] } =
      some "a" ∧ ("a" : String) ≠ "a=b" := by
  constructor
  · decide
  · decide

/-- C6 amended: for a text record whose pair is `name=` followed by `v`,
the extracted value is the part of `v` before its first `=` — i.e. the
pair is split at every `=` and the value is the segment between the first
and the second `=` (for "name=a=b" that value is "a"). -/
theorem to_name_value_between_first_and_second_eq (nm : String)
    (v : List Char) (rest : List String) :
    to_name { name := nm,
              kind := RecordKind.TXT
                (String.mk ('n' :: 'a' :: 'm' :: 'e' :: '=' :: v) :: rest) } =
      some (String.mk (v.takeWhile (fun x => x ≠ '='))) := by
  obtain ⟨t, ht⟩ := splitOnChar_head '=' v
  show nameFromPairs (String.mk ('n' :: 'a' :: 'm' :: 'e' :: '=' :: v) :: rest) = _
  unfold nameFromPairs
  rw [show (String.mk ('n' :: 'a' :: 'm' :: 'e' :: '=' :: v)).toList =
    'n' :: 'a' :: 'm' :: 'e' :: '=' :: v from rfl]
  rw [splitOnChar_name_key v, ht]
  simp

/-- C7: the snapshot projection is a pure function of the registry alone,
and it is order-independent: set-equal (permuted) registry contents give
set-equal (permuted) published outputs. -/
theorem snapshot_deterministic (m₁ m₂ : Registry) (h : m₁.Perm m₂) :
    (snapshot m₁).Perm (snapshot m₂) := by
  unfold snapshot
  exact h.map (fun p => toPrometheus p.2)

/-- Witness for C7: the snapshots of a two-entry registry given in the two
possible orders are permutations of one another. -/
theorem snapshot_deterministic_witness :
    (snapshot [(IpAddr.v4 1 1 1 1, ⟨"a", IpAddr.v4 1 1 1 1, 1, 0⟩),
               (IpAddr.v4 2 2 2 2, ⟨"b", IpAddr.v4 2 2 2 2, 2, 0⟩)]).Perm
      (snapshot [(IpAddr.v4 2 2 2 2, ⟨"b", IpAddr.v4 2 2 2 2, 2, 0⟩),
                 (IpAddr.v4 1 1 1 1, ⟨"a", IpAddr.v4 1 1 1 1, 1, 0⟩)]) :=
  snapshot_deterministic _ _
    (List.Perm.swap
      ((IpAddr.v4 2 2 2 2, ⟨"b", IpAddr.v4 2 2 2 2, 2, 0⟩) : IpAddr × Service)
      ((IpAddr.v4 1 1 1 1, ⟨"a", IpAddr.v4 1 1 1 1, 1, 0⟩) : IpAddr × Service)
      [])

/-- C8: any number of consecutive cycles that drain an empty channel while
no entry is past its liveness timeout leave the registry unchanged and
publish nothing. -/
theorem empty_drain_idempotent (m : Registry) (nows : List Nat)
    (h : ∀ t ∈ nows, ∀ p ∈ m, t - p.2.last_seen < TIMEOUT) :
    runEmpty m nows = (m, false) := by
  induction nows with
  | nil => rfl
  | cons t rest ih =>
    have hd : drain m [] = m := rfl
    have hexp : expire t m = m := expire_eq_self t m (h t (by simp))
    have hcond : ¬(m.length ≠ (drain m []).length ∨
        (drain m []).length ≠ (expire t (drain m [])).length) := by
      rw [hd, hexp]
      simp
    have hcyc : cycle m [] t = (m, none) := by
      unfold cycle
      rw [if_neg hcond, hd, hexp]
    have hrest : runEmpty m rest = (m, false) :=
      ih (fun t' ht' p hp => h t' (by simp [ht']) p hp)
    unfold runEmpty
    rw [hcyc]
    simp [hrest]

/-- Witness for C8: three cycles on an empty channel with a live entry at
times 10, 20, 30 change nothing and never publish. -/
theorem empty_drain_idempotent_witness :
    runEmpty [(IpAddr.v4 1 2 3 4, ⟨"n", IpAddr.v4 1 2 3 4, 80, 0⟩)]
      [10, 20, 30] =
      ([(IpAddr.v4 1 2 3 4, ⟨"n", IpAddr.v4 1 2 3 4, 80, 0⟩)], false) :=
  empty_drain_idempotent [(IpAddr.v4 1 2 3 4, ⟨"n", IpAddr.v4 1 2 3 4, 80, 0⟩)]
    [10, 20, 30] (by decide)

/-- C9: the result of the atomic write is discarded: the registry
evolution and the per-cycle publication decisions are identical whether
each cycle's write fails or succeeds, and every cycle of the input list is
still run (a failed write terminates nothing). -/
theorem write_failure_swallowed (m : Registry)
    (inputs : List (List Service × Nat × Bool)) :
    runLoop m inputs =
      runLoop m (inputs.map (fun t => (t.1, t.2.1, true))) ∧
    (runLoop m inputs).2.length = inputs.length := by
  constructor
  · induction inputs generalizing m with
    | nil => rfl
    | cons t rest ih =>
      obtain ⟨pend, now, w⟩ := t
      simp only [List.map_cons, runLoop]
      rw [ih]
  · induction inputs generalizing m with
    | nil => rfl
    | cons t rest ih =>
      obtain ⟨pend, now, w⟩ := t
      simp only [runLoop, List.length_cons]
      rw [ih]

/-- C10: a TXT pair that is exactly "name=" yields the empty string (not
nothing); a pair with no `=`, or whose key is not exactly "name", is
skipped and scanning continues with the later pairs; and a response whose
TXT carries "name=" is accepted by the decoder and published with labels
mapping "name" to the empty string. -/
theorem empty_name_accepted (nm p : String) (rest : List String) :
    (to_name { name := nm, kind := RecordKind.TXT ("name=" :: rest) } =
      some "") ∧
    ((∀ value t, splitOnChar '=' p.toList ≠ "name".toList :: value :: t) →
      to_name { name := nm, kind := RecordKind.TXT (p :: rest) } =
        to_name { name := nm, kind := RecordKind.TXT rest }) ∧
    ('=' ∉ p.toList →
      ∀ value t, splitOnChar '=' p.toList ≠ "name".toList :: value :: t) ∧
    (decode [{ name := SERVICE_NAME, kind := RecordKind.A 10 0 0 5 },
             { name := SERVICE_NAME, kind := RecordKind.SRV 0 0 9100 "tgt" },
             { name := "meta", kind := RecordKind.TXT ["name="] }] 3 =
      some { name := "", addr := IpAddr.v4 10 0 0 5, port := 9100,
             last_seen := 3 }) ∧
    (toPrometheus { name := "", addr := IpAddr.v4 10 0 0 5, port := 9100,
                    last_seen := 3 }).labels = [("name", "")] := by
  refine ⟨?_, ?_, ?_, ?_, ?_⟩
  · have h := to_name_value_between_first_and_second_eq nm [] rest
    simpa using h
  · intro h
    show nameFromPairs (p :: rest) = nameFromPairs rest
    have hEq : nameFromPairs (p :: rest) =
        (match splitOnChar '=' p.toList with
         | key :: value :: _ =>
             if key = "name".toList then some (String.mk value)
             else nameFromPairs rest
         | _ => nameFromPairs rest) := rfl
    cases hs : splitOnChar '=' p.toList with
    | nil => rw [hEq, hs]
    | cons key t2 =>
      cases t2 with
      | nil => rw [hEq, hs]
      | cons value t3 =>
        have hk : key ≠ "name".toList := fun hkey => h value t3 (hkey ▸ hs)
        rw [hEq, hs]
        show (if key = "name".toList then some (String.mk value)
          else nameFromPairs rest) = nameFromPairs rest
        rw [if_neg hk]
  · intro hmem value t heq
    rw [splitOnChar_of_not_mem '=' p.toList hmem] at heq
    simp at heq
  · decide
  · rfl

/-- Witness for C10: the pair "foo" (no `=`) is skipped and the following
"name=" pair yields the empty string. -/
theorem empty_name_accepted_witness :
    to_name { name := "r", kind := RecordKind.TXT ["foo", "name="] } =
      to_name { name := "r", kind := RecordKind.TXT ["name="] } ∧
    to_name { name := "r", kind := RecordKind.TXT ["name="] } = some "" := by
  have h1 := empty_name_accepted "r" "foo" ["name="]
  have h2 := empty_name_accepted "r" "foo" []
  exact ⟨h1.2.1 (h1.2.2.1 (by decide)), h2.1⟩

end PromMdns
